import Mathlib

/-!
Verification of the audio-analysis and recommendation core of the
`catchmyvibe` DJ-catalog platform.

The Python source under `backend/analysis` and `backend/recommend` is shallowly
embedded here: pure numeric code is translated to functions over `ℚ` (and `ℝ`
where the source takes square roots), `Optional`/missing values become
`Option`, and IEEE NaN propagation is modelled by `Option` values (`none` is
NaN) together with Python's comparison semantics (any comparison with NaN is
false).  External library calls (librosa feature extractors, numpy transforms)
are not repository code; where a function consumes their output, the embedded
function takes that output as an explicit argument.
-/

namespace CatchMyVibe

/-- Python `str.upper()`: uppercase each character (Python indexes and maps
strings by codepoint, so the `List Char` view is the faithful one). -/
def pyUpper (s : String) : String :=
  ⟨s.data.map Char.toUpper⟩

/-- Python `s[:-1]`: the string without its last character. -/
def pyDropLast (s : String) : String :=
  ⟨s.data.dropLast⟩

/-- Python truthiness of an optional string: `None` and `""` are falsy. -/
def strTruthy : Option String → Bool
  | none => false
  | some s => !(s.data == [])

/-- Python truthiness of an optional number: `None` and `0.0` are falsy. -/
def numTruthy : Option ℚ → Bool
  | none => false
  | some x => x != 0

namespace RecommendationEngine

/-- `RecommendationEngine.CAMELOT_ADJACENT` from `backend/recommend/engine.py`:
Camelot wheel adjacency for harmonic mixing, as an association list. -/
def CAMELOT_ADJACENT : List (String × List String) := [
  ("1A", ["12A", "2A", "1B"]),
  ("2A", ["1A", "3A", "2B"]),
  ("3A", ["2A", "4A", "3B"]),
  ("4A", ["3A", "5A", "4B"]),
  ("5A", ["4A", "6A", "5B"]),
  ("6A", ["5A", "7A", "6B"]),
  ("7A", ["6A", "8A", "7B"]),
  ("8A", ["7A", "9A", "8B"]),
  ("9A", ["8A", "10A", "9B"]),
  ("10A", ["9A", "11A", "10B"]),
  ("11A", ["10A", "12A", "11B"]),
  ("12A", ["11A", "1A", "12B"]),
  ("1B", ["12B", "2B", "1A"]),
  ("2B", ["1B", "3B", "2A"]),
  ("3B", ["2B", "4B", "3A"]),
  ("4B", ["3B", "5B", "4A"]),
  ("5B", ["4B", "6B", "5A"]),
  ("6B", ["5B", "7B", "6A"]),
  ("7B", ["6B", "8B", "7A"]),
  ("8B", ["7B", "9B", "8A"]),
  ("9B", ["8B", "10B", "9A"]),
  ("10B", ["9B", "11B", "10A"]),
  ("11B", ["10B", "12B", "11A"]),
  ("12B", ["11B", "1B", "12A"])
]

/-- Python `self.CAMELOT_ADJACENT.get(key, [])`. -/
def adjacentOf (k : String) : List String :=
  (CAMELOT_ADJACENT.lookup k).getD []

/-- `RecommendationEngine._score_key` from `backend/recommend/engine.py`
(lines 238-272): harmonic key compatibility on the Camelot wheel.  Score
values are the source's float literals as exact rationals. -/
def score_key (current_key candidate_key : Option String) : ℚ :=
  if !strTruthy current_key || !strTruthy candidate_key then 1/2
  else
    let c := pyUpper (current_key.getD "")
    let d := pyUpper (candidate_key.getD "")
    if c == d then 1
    else
      let adjacent := adjacentOf c
      if adjacent.contains d then 9/10
      else if pyDropLast c == pyDropLast d then 7/10
      else if adjacent.any (fun a => (adjacentOf a).contains d) then 1/2
      else 1/5

end RecommendationEngine

namespace KeySpec

/-- Successor on the Camelot wheel's number ring `1..12` (wrap at 12). -/
def nextNum (n : ℕ) : ℕ := if n = 12 then 1 else n + 1

/-- Written from the spec's words (claim C1): a single-hop neighbour on the
Camelot wheel is ±1 number with the same letter, or the same number with the
opposite letter.  `true` encodes the letter `B`, `false` the letter `A`. -/
def specSingleHop (n₁ : ℕ) (l₁ : Bool) (n₂ : ℕ) (l₂ : Bool) : Bool :=
  (l₁ == l₂ && (n₂ == nextNum n₁ || n₁ == nextNum n₂)) ||
    (n₁ == n₂ && l₁ != l₂)

/-- All 24 well-formed Camelot keys as (number, letter) pairs. -/
def allKeys : List (ℕ × Bool) :=
  (((List.range 12).map (· + 1)).map (fun n => [(n, false), (n, true)])).flatten

/-- Written from the spec's words (claim C1): the candidate is exactly two
hops away on the wheel — not the same key, not a single-hop neighbour, but
reachable by two hops. -/
def specTwoHop (n₁ : ℕ) (l₁ : Bool) (n₂ : ℕ) (l₂ : Bool) : Bool :=
  !(n₁ == n₂ && l₁ == l₂) && !specSingleHop n₁ l₁ n₂ l₂ &&
    allKeys.any (fun c => specSingleHop n₁ l₁ c.1 c.2 && specSingleHop c.1 c.2 n₂ l₂)

/-- Written from the spec's words (claim C1): the expected key score. -/
def specKeyScore (n₁ : ℕ) (l₁ : Bool) (n₂ : ℕ) (l₂ : Bool) : ℚ :=
  if n₁ == n₂ && l₁ == l₂ then 1
  else if specSingleHop n₁ l₁ n₂ l₂ then 9/10
  else if specTwoHop n₁ l₁ n₂ l₂ then 1/2
  else 1/5

/-- The Camelot key string for a (number, letter) pair. -/
def keyStr (n : ℕ) (l : Bool) : String :=
  toString n ++ (if l then "B" else "A")

end KeySpec

/-- Tail of a Python integer literal after its first digit: digits with
single underscores strictly between digits (`int("1_0")` parses, `int("1__0")`
and `int("1_")` raise `ValueError`). -/
def pyDigitsTail : List Char → Bool
  | [] => true
  | c :: r =>
    if c = '_' then
      match r with
      | [] => false
      | d :: r2 => d.isDigit && pyDigitsTail r2
    else c.isDigit && pyDigitsTail r

/-- A nonempty run of ASCII digits with legal underscores. -/
def pyDigits : List Char → Bool
  | [] => false
  | c :: r => c.isDigit && pyDigitsTail r

/-- Numeric value of a digit run, skipping underscores. -/
def pyDigitsVal (l : List Char) : ℕ :=
  l.foldl (fun a c => if c = '_' then a else 10 * a + (c.toNat - 48)) 0

/-- Python `int(s)` for ASCII strings: strip surrounding whitespace, then an
optional single sign followed by digits (with legal underscores); `none`
models the `ValueError` raised on anything else. -/
def pyInt (s : String) : Option ℤ :=
  let l := ((s.data.dropWhile Char.isWhitespace).reverse.dropWhile
    Char.isWhitespace).reverse
  match l with
  | [] => none
  | c :: rest =>
    if c = '+' then (if pyDigits rest then some (pyDigitsVal rest) else none)
    else if c = '-' then
      (if pyDigits rest then some (-(pyDigitsVal rest : ℤ)) else none)
    else if pyDigits l then some (pyDigitsVal l) else none

/-- Round half to even at integer precision, the idealisation of Python's
`round` on exact values: nearest integer, ties to the even neighbour. -/
def rne {α : Type} [LinearOrderedField α] [FloorRing α] [DecidableEq α]
    (x : α) : ℤ :=
  if Int.fract x = 1/2 then (if ⌊x⌋ % 2 = 0 then ⌊x⌋ else ⌊x⌋ + 1)
  else round x

/-- Python `round(x, d)`: round to `d` decimal places, ties to even. -/
def roundTo {α : Type} [LinearOrderedField α] [FloorRing α] [DecidableEq α]
    (d : ℕ) (x : α) : α :=
  (rne (x * 10 ^ d) : α) / 10 ^ d

/-- Sum of squares of a list of reals (`np.linalg.norm(v)` is its square root). -/
noncomputable def sumSq (l : List ℝ) : ℝ :=
  (l.map (fun x => x ^ 2)).sum

/-- `np.dot` on two same-length vectors. -/
noncomputable def dotList (a b : List ℝ) : ℝ :=
  (List.zipWith (· * ·) a b).sum

namespace RecommendationEngine

/-- The engine's per-instance configuration (`__init__` parameters). -/
structure EngineCfg where
  bpm_weight : ℚ
  key_weight : ℚ
  energy_weight : ℚ
  embedding_weight : ℚ
  bpm_tolerance : ℚ

/-- The default configuration from `__init__`:
weights 0.25 / 0.30 / 0.20 / 0.25 and BPM tolerance 6.0. -/
def defaultEngine : EngineCfg :=
  ⟨1/4, 3/10, 1/5, 1/4, 6⟩

/-- `RecommendationEngine._get_compatible_bpm_ranges` (lines 141-168):
the direct ±tolerance range, a half-time range when bpm > 120, and a
double-time range when bpm < 100. -/
def get_compatible_bpm_ranges (e : EngineCfg) (bpm : ℚ) : List (ℚ × ℚ) :=
  [(bpm - e.bpm_tolerance, bpm + e.bpm_tolerance)]
    ++ (if bpm > 120 then
          [(bpm / 2 - e.bpm_tolerance, bpm / 2 + e.bpm_tolerance)] else [])
    ++ (if bpm < 100 then
          [(bpm * 2 - e.bpm_tolerance, bpm * 2 + e.bpm_tolerance)] else [])

/-- The BPM pre-filter built in `get_recommendations` (lines 105-115): a
candidate's BPM passes when it lies inside at least one compatible range
(the SQL `or_` of `and_(Track.bpm >= low, Track.bpm <= high)` conditions). -/
def bpm_prefilter (e : EngineCfg) (current_bpm candidate_bpm : ℚ) : Bool :=
  (get_compatible_bpm_ranges e current_bpm).any
    (fun r => decide (r.1 ≤ candidate_bpm) && decide (candidate_bpm ≤ r.2))

/-- `RecommendationEngine._score_bpm` (lines 208-236). -/
def score_bpm (e : EngineCfg) (current_bpm candidate_bpm : Option ℚ) : ℚ :=
  if !numTruthy current_bpm || !numTruthy candidate_bpm then 1/2
  else
    let c := current_bpm.getD 0
    let d := candidate_bpm.getD 0
    let diff := |c - d|
    if diff ≤ e.bpm_tolerance then 1 - diff / e.bpm_tolerance
    else
      let half_diff := |c / 2 - d|
      if half_diff ≤ e.bpm_tolerance then 8/10 * (1 - half_diff / e.bpm_tolerance)
      else
        let double_diff := |c * 2 - d|
        if double_diff ≤ e.bpm_tolerance then
          8/10 * (1 - double_diff / e.bpm_tolerance)
        else 0

/-- `RecommendationEngine._score_energy` (lines 274-327).  The source tests
`current_energy is None or candidate_energy is None`, so (unlike the BPM and
key scores) an energy of `0.0` is not treated as missing. -/
def score_energy (current_energy candidate_energy : Option ℚ)
    (direction : String) : ℚ :=
  match current_energy, candidate_energy with
  | some ce, some de =>
    let diff := de - ce
    if direction == "build" then
      if 0 ≤ diff ∧ diff ≤ 2/10 then 1
      else if 2/10 < diff ∧ diff ≤ 4/10 then 7/10
      else if -(1/10) ≤ diff ∧ diff < 0 then 1/2
      else 1/5
    else if direction == "drop" then
      if -(2/10) ≤ diff ∧ diff ≤ 0 then 1
      else if -(4/10) ≤ diff ∧ diff < -(2/10) then 7/10
      else if 0 < diff ∧ diff ≤ 1/10 then 1/2
      else 1/5
    else
      let abs_diff := |diff|
      if abs_diff ≤ 1/10 then 1
      else if abs_diff ≤ 2/10 then 7/10
      else if abs_diff ≤ 3/10 then 4/10
      else 1/5
  | _, _ => 1/2

/-- `RecommendationEngine._score_embedding` (lines 329-359): cosine
similarity mapped to [0,1]; neutral 0.5 when either embedding is falsy
(`None` or the empty list) or when either norm is zero. -/
noncomputable def score_embedding (a b : Option (List ℝ)) : ℝ :=
  match a, b with
  | some x, some y =>
    if x = [] ∨ y = [] then 1/2
    else
      let dot := dotList x y
      let norm := Real.sqrt (sumSq x) * Real.sqrt (sumSq y)
      if norm = 0 then 1/2
      else (dot / norm + 1) / 2
  | _, _ => 1/2

/-- A `Track` record as the engine reads it: the four analysed fields. -/
structure TrackM where
  bpm : Option ℚ
  key : Option String
  energy : Option ℚ
  embedding : Option (List ℝ)

/-- The score dictionary returned by `_calculate_scores`. -/
structure Scores where
  bpm : ℚ
  key : ℚ
  energy : ℚ
  embedding : ℝ
  total : ℝ

/-- `RecommendationEngine._calculate_scores` (lines 170-206). -/
noncomputable def calculate_scores (e : EngineCfg) (current candidate : TrackM)
    (energy_direction : String) : Scores :=
  let b := score_bpm e current.bpm candidate.bpm
  let k := score_key current.key candidate.key
  let en := score_energy current.energy candidate.energy energy_direction
  let em := score_embedding current.embedding candidate.embedding
  ⟨b, k, en, em,
    (b : ℝ) * (e.bpm_weight : ℝ) + (k : ℝ) * (e.key_weight : ℝ)
      + (en : ℝ) * (e.energy_weight : ℝ) + em * (e.embedding_weight : ℝ)⟩

/-- The current track of the spec's recommendation scenario
(claim C2): bpm 128, key "8B", energy 0.6, no embedding. -/
def c2Current : TrackM := ⟨some 128, some "8B", some (6/10), none⟩

/-- Scenario candidate A: bpm 128, key "8B", energy 0.62, no embedding. -/
def c2A : TrackM := ⟨some 128, some "8B", some (62/100), none⟩

/-- Scenario candidate B: bpm 128, key "3A", energy 0.9, no embedding. -/
def c2B : TrackM := ⟨some 128, some "3A", some (9/10), none⟩

end RecommendationEngine

namespace KeySpec

/-- Predecessor on the Camelot wheel's number ring `1..12` (wrap at 1). -/
def prevNum (n : ℕ) : ℕ := if n = 1 then 12 else n - 1

end KeySpec

namespace KeyDetector

/-- `KeyDetector.get_harmonic_compatible_keys` from
`backend/analysis/key_detector.py` (lines 164-194): the key itself, the
same-number-opposite-letter key, and the two numerically adjacent same-letter
keys; `[]` for malformed input (empty, too short, or `int()` failing on the
numeric part). -/
def get_harmonic_compatible_keys (camelot_key : String) : List String :=
  if camelot_key.data = [] ∨ camelot_key.length < 2 then []
  else
    match pyInt (pyDropLast camelot_key) with
    | none => []
    | some number =>
      let letter := (camelot_key.data.getLastD ' ').toUpper
      let other_letter := if letter = 'A' then 'B' else 'A'
      let prev_num : ℤ := if number = 1 then 12 else number - 1
      let next_num : ℤ := if number = 12 then 1 else number + 1
      [camelot_key,
       toString number ++ String.singleton other_letter,
       toString prev_num ++ String.singleton letter,
       toString next_num ++ String.singleton letter]

end KeyDetector

namespace BPMDetector

/-- Insert a value into a sorted list (ascending). -/
def insertS (x : ℚ) : List ℚ → List ℚ
  | [] => [x]
  | y :: ys => if x ≤ y then x :: y :: ys else y :: insertS x ys

/-- Insertion sort, the sorted order `np.median` works on. -/
def sortQ (l : List ℚ) : List ℚ := l.foldr insertS []

/-- `np.median`: middle element of the sorted list, or the average of the
two middle elements for even length. -/
def npMedian (l : List ℚ) : ℚ :=
  let s := sortQ l
  if l.length % 2 = 1 then s.getD (l.length / 2) 0
  else (s.getD (l.length / 2 - 1) 0 + s.getD (l.length / 2) 0) / 2

/-- `np.mean` (the code only applies it to nonempty lists). -/
def npMean (l : List ℚ) : ℚ := l.sum / l.length

/-- `np.std` squared: the population variance. -/
def npVar (l : List ℚ) : ℚ :=
  ((l.map (fun x => (x - npMean l) ^ 2)).sum) / l.length

/-- `BPMDetector.detect` (lines 57-60): the initial estimate list.  The
tempogram estimate is appended only when truthy (`if tempo_tempogram:`
skips both `None` and `0.0`). -/
def tempos0 (tempo_beat tempo_onset : ℚ) (tempo_tempogram : Option ℚ) : List ℚ :=
  [tempo_beat, tempo_onset] ++
    (match tempo_tempogram with
     | some t => if t ≠ 0 then [t] else []
     | none => [])

/-- The `60 <= t <= 200` realism filter (line 63). -/
def inRange (t : ℚ) : Bool := decide (60 ≤ t) && decide (t ≤ 200)

/-- The estimates surviving the realism filter (line 63). -/
def tempos1 (tb tOn : ℚ) (tg : Option ℚ) : List ℚ :=
  (tempos0 tb tOn tg).filter inRange

/-- Octave correction (lines 65-71): double tempos in [30,60), halve
tempos above 200; the [60,200] filter is NOT applied to these. -/
def octaveCorrected (tb tOn : ℚ) : List ℚ :=
  [tb, tOn].filterMap (fun t =>
    if 30 ≤ t ∧ t < 60 then some (t * 2)
    else if t > 200 then some (t / 2)
    else none)

/-- The estimate list used for the final median (lines 65-71). -/
def tempos2 (tb tOn : ℚ) (tg : Option ℚ) : List ℚ :=
  if tempos1 tb tOn tg = [] then octaveCorrected tb tOn else tempos1 tb tOn tg

/-- The BPM component of `BPMDetector.detect` (lines 73-86): the raw beat
estimate when nothing survives, otherwise the rounded median. -/
def detectBpm (tb tOn : ℚ) (tg : Option ℚ) : ℚ :=
  if tempos2 tb tOn tg = [] then tb
  else roundTo 2 (npMedian (tempos2 tb tOn tg))

/-- The confidence component of `BPMDetector.detect` (lines 73-86):
0 when nothing survives, `max(0, 1 - std/final_bpm)` for ≥ 2 estimates,
else the neutral 0.5 — rounded to 3 decimals. -/
noncomputable def detectConf (tb tOn : ℚ) (tg : Option ℚ) : ℝ :=
  if tempos2 tb tOn tg = [] then 0
  else if 1 < (tempos2 tb tOn tg).length then
    roundTo 3 (max 0 (1 - Real.sqrt ((npVar (tempos2 tb tOn tg) : ℚ) : ℝ)
      / ((npMedian (tempos2 tb tOn tg) : ℚ) : ℝ)))
  else roundTo 3 (1/2)

/-- `BPMDetector.detect`'s returned `(bpm, confidence)` pair, as a function
of the three tempo estimates (the librosa estimators are external and enter
as arguments). -/
noncomputable def detect (tb tOn : ℚ) (tg : Option ℚ) : ℚ × ℝ :=
  (detectBpm tb tOn tg, detectConf tb tOn tg)

end BPMDetector

/-- `np.mean` over reals (the embeddings apply it to nonempty lists; the
empty case, where numpy yields NaN, is modelled separately by `npMeanOpt`). -/
noncomputable def meanR (l : List ℝ) : ℝ := l.sum / l.length

/-- `np.mean` with its NaN-on-empty behaviour: `none` models NaN. -/
noncomputable def npMeanOpt (l : List ℝ) : Option ℝ :=
  if l = [] then none else some (meanR l)

namespace KeyDetector

/-- `KeyDetector.MAJOR_PROFILE` (Krumhansl-Schmuckler). -/
def MAJOR_PROFILE : List ℚ :=
  [635/100, 223/100, 348/100, 233/100, 438/100, 409/100,
   252/100, 519/100, 239/100, 366/100, 229/100, 288/100]

/-- `KeyDetector.MINOR_PROFILE` (Krumhansl-Schmuckler). -/
def MINOR_PROFILE : List ℚ :=
  [633/100, 268/100, 352/100, 538/100, 260/100, 353/100,
   254/100, 475/100, 398/100, 269/100, 334/100, 317/100]

/-- `KeyDetector.PITCH_CLASSES`: the twelve pitch-class names in order
(written as a concatenation of the two halves of the source's list). -/
def PITCH_CLASSES : List String :=
  ["C", "C#", "D", "D#", "E", "F"] ++ ["F#", "G", "G#", "A", "A#", "B"]

/-- `KeyDetector.CAMELOT_MAP`: the fixed 24-entry Camelot lookup. -/
def CAMELOT_MAP : List ((String × String) × String) := [
  (("C", "major"), "8B"), (("C", "minor"), "5A"),
  (("C#", "major"), "3B"), (("C#", "minor"), "12A"),
  (("D", "major"), "10B"), (("D", "minor"), "7A"),
  (("D#", "major"), "5B"), (("D#", "minor"), "2A"),
  (("E", "major"), "12B"), (("E", "minor"), "9A"),
  (("F", "major"), "7B"), (("F", "minor"), "4A"),
  (("F#", "major"), "2B"), (("F#", "minor"), "11A"),
  (("G", "major"), "9B"), (("G", "minor"), "6A"),
  (("G#", "major"), "4B"), (("G#", "minor"), "1A"),
  (("A", "major"), "11B"), (("A", "minor"), "8A"),
  (("A#", "major"), "6B"), (("A#", "minor"), "3A"),
  (("B", "major"), "1B"), (("B", "minor"), "10A")
]

/-- `np.roll`: rotate the list right by `k`. -/
def npRoll (l : List ℚ) (k : ℕ) : List ℚ :=
  l.drop (l.length - k % l.length) ++ l.take (l.length - k % l.length)

/-- Division by the plain L2 norm (profile normalisation, lines 91-92). -/
noncomputable def normalizeVec (v : List ℝ) : List ℝ :=
  v.map (· / Real.sqrt (sumSq v))

/-- Chroma normalisation with the `1e-10` guard (line 78). -/
noncomputable def normalizeChroma (c : List ℝ) : List ℝ :=
  c.map (· / (Real.sqrt (sumSq c) + 1/10^10))

/-- `np.corrcoef(x, y)[0, 1]` (Pearson correlation); `none` models the NaN
numpy produces when either vector has zero variance. -/
noncomputable def corrcoef (x y : List ℝ) : Option ℝ :=
  let mx := meanR x
  let my := meanR y
  let vx := (x.map (fun a => (a - mx) ^ 2)).sum
  let vy := (y.map (fun a => (a - my) ^ 2)).sum
  if vx = 0 ∨ vy = 0 then none
  else some ((List.zipWith (fun a b => (a - mx) * (b - my)) x y).sum
    / Real.sqrt (vx * vy))

/-- Python `corr > best` when `corr` may be NaN: any NaN comparison is false. -/
noncomputable def nanGt (o : Option ℝ) (b : ℝ) : Bool :=
  match o with
  | none => false
  | some v => decide (b < v)

/-- One iteration of the pitch-class loop of `KeyDetector.detect`
(lines 85-106): update `(best_key, best_mode, best_correlation)` with the
major then the minor correlation at rotation `p`. -/
noncomputable def detectStep (ch : List ℝ) (st : Option ℕ × Option String × ℝ)
    (p : ℕ) : Option ℕ × Option String × ℝ :=
  let mj := corrcoef ch (normalizeVec ((npRoll MAJOR_PROFILE p).map (fun q => (q:ℝ))))
  let mi := corrcoef ch (normalizeVec ((npRoll MINOR_PROFILE p).map (fun q => (q:ℝ))))
  let st1 := if nanGt mj st.2.2 then (some p, some "major", mj.getD 0) else st
  if nanGt mi st1.2.2 then (some p, some "minor", mi.getD 0) else st1

/-- `KeyDetector.detect` (lines 55-114) downstream of librosa's chromagram:
the argument is the time-averaged chroma vector (line 75).  The result is
`none` when the loop never updates `best_key` (all 24 correlations NaN), in
which case the source raises `TypeError` at `PITCH_CLASSES[best_key]` with
`best_key = None`; otherwise `(root, mode, camelot, confidence)`. -/
noncomputable def detect (chroma_avg : List ℝ) :
    Option (String × String × String × ℝ) :=
  let ch := normalizeChroma chroma_avg
  let fin := (List.range 12).foldl (detectStep ch) (none, none, -1)
  match fin.1, fin.2.1 with
  | some k, some mode =>
    let root := PITCH_CLASSES.getD k ""
    let camelot := (CAMELOT_MAP.lookup (root, mode)).getD ""
    some (root, mode, camelot, roundTo 3 (max 0 (min 1 ((fin.2.2 + 1) / 2))))
  | _, _ => none

end KeyDetector

namespace EmbeddingGenerator

/-- `EmbeddingGenerator.generate` (lines 109-124) downstream of feature
extraction: the argument is the concatenated feature vector (the librosa
extractors are external; the source concatenation has 141 entries).
Normalise to unit length when the norm is positive, then zero-pad (or
truncate) to exactly 256 dimensions. -/
noncomputable def generate (features : List ℝ) : List ℝ :=
  let norm := Real.sqrt (sumSq features)
  let embedding := if norm > 0 then features.map (· / norm) else features
  if embedding.length < 256 then
    embedding ++ List.replicate (256 - embedding.length) 0
  else embedding.take 256

/-- Python `max(waveform) if waveform else 1.0` (line 214). -/
noncomputable def pymaxList : List ℝ → ℝ
  | [] => 1
  | x :: xs => xs.foldl max x

/-- The per-bin sample count of `generate_waveform_data` (lines 195-198):
`len(y) // num_samples`, at least 1. -/
def samplesPerBin (ylen num_samples : ℕ) : ℕ :=
  if ylen / num_samples < 1 then 1 else ylen / num_samples

/-- One bin of `generate_waveform_data` (lines 201-211): the RMS of the
slice `y[i*spb : i*spb+spb]`, or 0.0 when the slice is empty. -/
noncomputable def binValue (y : List ℝ) (spb i : ℕ) : ℝ :=
  let segment := (y.drop (i * spb)).take spb
  if 0 < segment.length then Real.sqrt (meanR (segment.map (fun a => a ^ 2)))
  else 0

/-- The un-normalised `waveform` list of `generate_waveform_data`. -/
noncomputable def rawWaveform (y : List ℝ) (num_samples : ℕ) : List ℝ :=
  (List.range num_samples).map (binValue y (samplesPerBin y.length num_samples))

/-- `EmbeddingGenerator.generate_waveform_data` (lines 176-218): bin the
waveform into `num_samples` bins of `len(y) // num_samples` samples (at
least 1), take the RMS of each bin (0.0 for empty bins past the end), and
divide every bin by the maximum when it is positive. -/
noncomputable def generate_waveform_data (y : List ℝ) (num_samples : ℕ) :
    List ℝ :=
  let max_val := pymaxList (rawWaveform y num_samples)
  if max_val > 0 then (rawWaveform y num_samples).map (· / max_val)
  else rawWaveform y num_samples

end EmbeddingGenerator

namespace AudioAnalyzer

/-- `AudioAnalyzer._compute_energy` (lines 208-230).  For an empty waveform
numpy's `np.mean` of the empty square array is NaN, so the RMS is NaN
(modelled by `none`) and propagates through the arithmetic; Python's
`min(1.0, v)` evaluates to 1.0 when `v` is NaN because the comparison is
false.  The mean STFT magnitude (`np.mean(np.abs(librosa.stft(y)))`) is
external library output and enters as the argument `spectral_energy`. -/
noncomputable def compute_energy (y : List ℝ) (spectral_energy : ℝ) : ℝ :=
  let rms : Option ℝ := (npMeanOpt (y.map (fun a => a ^ 2))).map Real.sqrt
  let combined : Option ℝ := rms.map (fun r => (r + spectral_energy / 100) / 2)
  let energy : ℝ :=
    match combined.map (· * 5) with
    | none => 1
    | some v => if v < 1 then v else 1
  roundTo 3 energy

end AudioAnalyzer

end CatchMyVibe

namespace CatchMyVibe

unseal Rat.mul Rat.inv in
/-- Bounded form of claim C1 over all 24 × 24 well-formed key pairs. -/
theorem score_key_spec_bounded :
    ∀ a < 12, ∀ b < 12, ∀ l₁ l₂ : Bool,
      RecommendationEngine.score_key (some (KeySpec.keyStr (a + 1) l₁))
          (some (KeySpec.keyStr (b + 1) l₂)) =
        KeySpec.specKeyScore (a + 1) l₁ (b + 1) l₂ := by
  decide

/-- C1: for every pair of well-formed Camelot keys (number 1..12, letter A or
B), `_score_key` returns 1.0 on equal keys, 0.9 on any single-hop neighbour
(±1 number same letter, or same number opposite letter — so relative
major/minor pairs get 0.9 and the 0.7 rule is shadowed), 0.5 at exactly two
hops on the wheel, 0.2 otherwise; and 0.5 whenever either key is
unknown/absent. -/
theorem claim_C1_key_score (n₁ n₂ : ℕ) (l₁ l₂ : Bool)
    (h₁ : 1 ≤ n₁) (h₂ : n₁ ≤ 12) (h₃ : 1 ≤ n₂) (h₄ : n₂ ≤ 12) :
    RecommendationEngine.score_key (some (KeySpec.keyStr n₁ l₁))
        (some (KeySpec.keyStr n₂ l₂)) = KeySpec.specKeyScore n₁ l₁ n₂ l₂
    ∧ (∀ k : Option String,
        RecommendationEngine.score_key none k = 1/2
        ∧ RecommendationEngine.score_key k none = 1/2) := by
  constructor
  · have h := score_key_spec_bounded (n₁ - 1) (by omega) (n₂ - 1) (by omega) l₁ l₂
    have e₁ : n₁ - 1 + 1 = n₁ := by omega
    have e₂ : n₂ - 1 + 1 = n₂ := by omega
    rw [e₁, e₂] at h
    exact h
  · intro k
    refine ⟨by simp [RecommendationEngine.score_key, strTruthy], ?_⟩
    cases k with
    | none => simp [RecommendationEngine.score_key, strTruthy]
    | some s => simp [RecommendationEngine.score_key, strTruthy]

unseal Rat.mul Rat.inv Rat.add Rat.sub in
/-- Witness for C1 at the concrete relative major/minor pair 8B / 8A:
the hypotheses hold and the score is the spec's single-hop value 0.9. -/
theorem claim_C1_key_score_witness :
    ((1 ≤ 8 ∧ 8 ≤ 12) ∧ (1 ≤ 8 ∧ 8 ≤ 12))
    ∧ RecommendationEngine.score_key (some (KeySpec.keyStr 8 true))
        (some (KeySpec.keyStr 8 false)) = KeySpec.specKeyScore 8 true 8 false
    ∧ KeySpec.specKeyScore 8 true 8 false = 9/10 :=
  ⟨⟨⟨by decide, by decide⟩, ⟨by decide, by decide⟩⟩,
   (claim_C1_key_score 8 8 true false (by decide) (by decide) (by decide)
      (by decide)).1,
   by decide⟩

namespace RecommendationEngine

/-- The embedding score between two absent embeddings is the neutral 0.5. -/
theorem score_embedding_none : score_embedding none none = 1/2 := rfl

unseal Rat.mul Rat.inv Rat.add Rat.sub in
theorem c2_scores_A :
    score_bpm defaultEngine (some 128) (some 128) = 1
    ∧ score_key (some "8B") (some "8B") = 1
    ∧ score_energy (some (6/10)) (some (62/100)) "maintain" = 1 := by
  refine ⟨by decide, by decide, by decide⟩

unseal Rat.mul Rat.inv Rat.add Rat.sub in
theorem c2_scores_B :
    score_key (some "8B") (some "3A") = 1/5
    ∧ score_energy (some (6/10)) (some (9/10)) "maintain" = 4/10 := by
  refine ⟨by decide, by decide⟩

unseal Rat.mul Rat.inv Rat.add Rat.sub in
theorem c2_prefilter : bpm_prefilter defaultEngine 128 200 = false := by
  decide

/-- The weighted total of scenario candidate A under default weights. -/
theorem c2_totalA :
    (calculate_scores defaultEngine c2Current c2A "maintain").total = 7/8 := by
  have h := c2_scores_A
  simp only [calculate_scores, c2Current, c2A, h.1, h.2.1, h.2.2,
    score_embedding_none]
  norm_num [defaultEngine]

/-- The weighted total of scenario candidate B under default weights. -/
theorem c2_totalB :
    (calculate_scores defaultEngine c2Current c2B "maintain").total = 103/200 := by
  have hb : score_bpm defaultEngine (some 128) (some 128) = 1 := c2_scores_A.1
  have h := c2_scores_B
  simp only [calculate_scores, c2Current, c2B, hb, h.1, h.2,
    score_embedding_none]
  norm_num [defaultEngine]

end RecommendationEngine

open RecommendationEngine in
unseal Rat.mul Rat.inv Rat.add Rat.sub in
/-- C2 counterexample: with no embeddings the embedding factor is the neutral
0.5, so candidate A's weighted total is 0.875, strictly below the claimed
"at least 0.95". -/
theorem claim_C2_counterexample :
    (calculate_scores defaultEngine c2Current c2A "maintain").total < 19/20 := by
  rw [c2_totalA]
  norm_num

open RecommendationEngine in
/-- C2 (amended): candidate C (bpm 200) falls outside every compatible BPM
range of the 128-BPM current track and is excluded by the pre-filter;
candidate A's component scores are BPM 1.0, key 1.0, energy 1.0, its
embedding score is the neutral 0.5 (no embeddings), and its weighted total
is exactly 0.875; A's total strictly exceeds B's total. -/
theorem claim_C2_scenario :
    bpm_prefilter defaultEngine 128 200 = false
    ∧ (calculate_scores defaultEngine c2Current c2A "maintain").bpm = 1
    ∧ (calculate_scores defaultEngine c2Current c2A "maintain").key = 1
    ∧ (calculate_scores defaultEngine c2Current c2A "maintain").energy = 1
    ∧ (calculate_scores defaultEngine c2Current c2A "maintain").total = 7/8
    ∧ (calculate_scores defaultEngine c2Current c2B "maintain").total
        < (calculate_scores defaultEngine c2Current c2A "maintain").total := by
  have h := c2_scores_A
  refine ⟨c2_prefilter, h.1, h.2.1, h.2.2, c2_totalA, ?_⟩
  rw [c2_totalA, c2_totalB]
  norm_num

/-- Bounded form of claim C8 over all 24 well-formed keys. -/
theorem harmonic_keys_bounded :
    ∀ a < 12, ∀ l : Bool,
      KeyDetector.get_harmonic_compatible_keys (KeySpec.keyStr (a + 1) l) =
        [KeySpec.keyStr (a + 1) l, KeySpec.keyStr (a + 1) (!l),
         KeySpec.keyStr (KeySpec.prevNum (a + 1)) l,
         KeySpec.keyStr (KeySpec.nextNum (a + 1)) l] := by
  decide

/-- C8: for every well-formed Camelot key, `get_harmonic_compatible_keys`
returns the key itself, the same-number-opposite-letter key and the two
numerically adjacent same-letter keys with wrap-around at 1/12; in
particular for "8A" it returns exactly ["8A", "8B", "7A", "9A"]. -/
theorem claim_C8_harmonic_keys (n : ℕ) (l : Bool) (h₁ : 1 ≤ n) (h₂ : n ≤ 12) :
    KeyDetector.get_harmonic_compatible_keys (KeySpec.keyStr n l) =
      [KeySpec.keyStr n l, KeySpec.keyStr n (!l),
       KeySpec.keyStr (KeySpec.prevNum n) l, KeySpec.keyStr (KeySpec.nextNum n) l]
    ∧ KeyDetector.get_harmonic_compatible_keys "8A" = ["8A", "8B", "7A", "9A"] := by
  constructor
  · have h := harmonic_keys_bounded (n - 1) (by omega) l
    have e : n - 1 + 1 = n := by omega
    rw [e] at h
    exact h
  · decide

/-- Witness for C8 at the concrete key "8A". -/
theorem claim_C8_harmonic_keys_witness :
    (1 ≤ 8 ∧ 8 ≤ 12)
    ∧ KeyDetector.get_harmonic_compatible_keys (KeySpec.keyStr 8 false) =
        [KeySpec.keyStr 8 false, KeySpec.keyStr 8 true,
         KeySpec.keyStr (KeySpec.prevNum 8) false,
         KeySpec.keyStr (KeySpec.nextNum 8) false] :=
  ⟨⟨by decide, by decide⟩, (claim_C8_harmonic_keys 8 false (by decide) (by decide)).1⟩

/-- C10: for every malformed Camelot key string — empty, shorter than two
characters, or with a numeric part that `int()` rejects — the function
returns the empty list instead of raising. -/
theorem claim_C10_malformed_keys (s : String)
    (h : s = "" ∨ s.length < 2 ∨ pyInt (pyDropLast s) = none) :
    KeyDetector.get_harmonic_compatible_keys s = [] := by
  unfold KeyDetector.get_harmonic_compatible_keys
  rcases h with h | h | h
  · subst h
    decide
  · rw [if_pos (Or.inr h)]
  · by_cases hc : s.data = [] ∨ s.length < 2
    · rw [if_pos hc]
    · rw [if_neg hc, h]

/-- Witness for C10 at the concrete malformed key "XB". -/
theorem claim_C10_malformed_keys_witness :
    pyInt (pyDropLast "XB") = none
    ∧ KeyDetector.get_harmonic_compatible_keys "XB" = [] :=
  ⟨by decide, claim_C10_malformed_keys "XB" (Or.inr (Or.inr (by decide)))⟩

theorem rne_intCast {α : Type} [LinearOrderedField α] [FloorRing α]
    [DecidableEq α] (n : ℤ) : rne (n : α) = n := by
  unfold rne
  rw [Int.fract_intCast, if_neg (by norm_num), round_intCast]

theorem floor_le_rne {α : Type} [LinearOrderedField α] [FloorRing α]
    [DecidableEq α] (x : α) : ⌊x⌋ ≤ rne x := by
  unfold rne
  split
  · split <;> omega
  · rw [round_eq]
    exact Int.floor_le_floor (by linarith)

theorem rne_le_ceil {α : Type} [LinearOrderedField α] [FloorRing α]
    [DecidableEq α] (x : α) : rne x ≤ ⌈x⌉ := by
  unfold rne
  split
  · rename_i h
    have hself := Int.self_sub_floor x
    rw [h] at hself
    have hlt : ⌊x⌋ < ⌈x⌉ := by
      rw [Int.lt_ceil]
      linarith
    split
    · exact Int.floor_le_ceil x
    · omega
  · rw [round_eq]
    have hhalf : ⌊(1:α)/2⌋ = 0 := by
      rw [Int.floor_eq_zero_iff]
      constructor <;> norm_num
    calc ⌊x + 1/2⌋ ≤ ⌊((⌈x⌉ : ℤ) : α) + 1/2⌋ :=
          Int.floor_le_floor (by linarith [Int.le_ceil x])
      _ = ⌈x⌉ + ⌊(1:α)/2⌋ := Int.floor_int_add _ _
      _ = ⌈x⌉ := by rw [hhalf, add_zero]

theorem roundTo_den_one {x : ℚ} (h : (x * 100).den = 1) : roundTo 2 x = x := by
  unfold roundTo
  have hx : ((x * 100).num : ℚ) = x * 100 := Rat.coe_int_num_of_den_eq_one h
  have h10 : x * 10 ^ 2 = ((x * 100).num : ℚ) := by rw [hx]; norm_num
  rw [h10, rne_intCast, hx]
  have h100 : (10:ℚ) ^ 2 = 100 := by norm_num
  rw [h100]
  exact mul_div_cancel_right₀ x (by norm_num)

theorem roundTo_three_one : roundTo 3 (1:ℝ) = 1 := by
  unfold roundTo
  have h : (1:ℝ) * 10 ^ 3 = ((1000:ℤ):ℝ) := by norm_num
  rw [h, rne_intCast]
  norm_num

theorem roundTo_two_bounds {x : ℚ} {lo hi : ℤ} (h1 : (lo:ℚ) ≤ x)
    (h2 : x ≤ (hi:ℚ)) : (lo:ℚ) ≤ roundTo 2 x ∧ roundTo 2 x ≤ (hi:ℚ) := by
  unfold roundTo
  have hfl : 100 * lo ≤ ⌊x * 10 ^ 2⌋ := Int.le_floor.mpr (by push_cast; linarith)
  have hcl : ⌈x * 10 ^ 2⌉ ≤ 100 * hi := Int.ceil_le.mpr (by push_cast; linarith)
  have ha := le_trans hfl (floor_le_rne (x * 10 ^ 2))
  have hb := le_trans (rne_le_ceil (x * 10 ^ 2)) hcl
  constructor
  · rw [le_div_iff₀ (by norm_num : (0:ℚ) < 10 ^ 2)]
    calc (lo:ℚ) * 10 ^ 2 = ((100 * lo : ℤ) : ℚ) := by push_cast; ring
      _ ≤ _ := Int.cast_le.mpr ha
  · rw [div_le_iff₀ (by norm_num : (0:ℚ) < 10 ^ 2)]
    calc ((rne (x * 10 ^ 2) : ℤ) : ℚ) ≤ ((100 * hi : ℤ) : ℚ) := Int.cast_le.mpr hb
      _ = (hi:ℚ) * 10 ^ 2 := by push_cast; ring

namespace BPMDetector

theorem length_insertS (x : ℚ) (l : List ℚ) :
    (insertS x l).length = l.length + 1 := by
  induction l with
  | nil => rfl
  | cons y ys ih =>
    unfold insertS
    split
    · simp
    · simp [ih]

theorem mem_insertS {x z : ℚ} {l : List ℚ} (h : z ∈ insertS x l) :
    z = x ∨ z ∈ l := by
  induction l with
  | nil => simpa [insertS] using h
  | cons y ys ih =>
    unfold insertS at h
    split at h
    · exact List.mem_cons.mp h
    · rcases List.mem_cons.mp h with h | h
      · right
        simp [h]
      · rcases ih h with h | h
        · exact Or.inl h
        · exact Or.inr (List.mem_cons_of_mem _ h)

theorem mem_sortQ {z : ℚ} {l : List ℚ} (h : z ∈ sortQ l) : z ∈ l := by
  induction l with
  | nil => simp [sortQ] at h
  | cons y ys ih =>
    have he : sortQ (y :: ys) = insertS y (sortQ ys) := rfl
    rw [he] at h
    rcases mem_insertS h with h | h
    · simp [h]
    · exact List.mem_cons_of_mem _ (ih h)

theorem length_sortQ (l : List ℚ) : (sortQ l).length = l.length := by
  induction l with
  | nil => rfl
  | cons y ys ih =>
    have he : sortQ (y :: ys) = insertS y (sortQ ys) := rfl
    rw [he, length_insertS, ih]
    rfl

theorem getD_mem_of_lt {l : List ℚ} {n : ℕ} (h : n < l.length) (d : ℚ) :
    l.getD n d ∈ l := by
  induction l generalizing n with
  | nil => simp at h
  | cons y ys ih =>
    cases n with
    | zero => simp
    | succ m =>
      have : (y :: ys).getD (m + 1) d = ys.getD m d := rfl
      rw [this]
      exact List.mem_cons_of_mem _ (ih (by simpa using h))

theorem npMedian_bounds {l : List ℚ} {lo hi : ℚ} (hne : l ≠ [])
    (hb : ∀ x ∈ l, lo ≤ x ∧ x ≤ hi) :
    lo ≤ npMedian l ∧ npMedian l ≤ hi := by
  have hlen : (sortQ l).length = l.length := length_sortQ l
  have hpos : 0 < l.length := List.length_pos.mpr hne
  have hmem : ∀ n, n < l.length → ∀ d : ℚ,
      lo ≤ (sortQ l).getD n d ∧ (sortQ l).getD n d ≤ hi := by
    intro n hn d
    exact hb _ (mem_sortQ (getD_mem_of_lt (by omega) d))
  unfold npMedian
  split
  · exact hmem _ (Nat.div_lt_self hpos one_lt_two) 0
  · rename_i hodd
    have hi1 : l.length / 2 - 1 < l.length := by omega
    have hi2 : l.length / 2 < l.length := by omega
    have b1 := hmem _ hi1 0
    have b2 := hmem _ hi2 0
    constructor
    · linarith [b1.1, b2.1]
    · linarith [b1.2, b2.2]

end BPMDetector

open BPMDetector in
/-- C4 (amended): estimates outside [60,200] are discarded; if all are
discarded, octave correction doubles tempos in [30,60) and halves tempos
above 200 but the [60,200] filter is NOT re-applied; the final BPM is the
(rounded) median of the surviving estimates, or the raw beat estimate with
confidence 0 if none survive.  The [60,200] bound on the returned BPM is
guaranteed whenever at least one estimate survives the initial filter. -/
theorem claim_C4_bpm_combine (tb tOn : ℚ) (tg : Option ℚ) :
    (tempos1 tb tOn tg ≠ [] →
      detectBpm tb tOn tg = roundTo 2 (npMedian (tempos1 tb tOn tg))
      ∧ 60 ≤ detectBpm tb tOn tg ∧ detectBpm tb tOn tg ≤ 200)
    ∧ (tempos1 tb tOn tg = [] → tempos2 tb tOn tg ≠ [] →
      detectBpm tb tOn tg = roundTo 2 (npMedian (octaveCorrected tb tOn)))
    ∧ (tempos2 tb tOn tg = [] → detect tb tOn tg = (tb, 0)) := by
  refine ⟨?_, ?_, ?_⟩
  · intro h
    have h2 : tempos2 tb tOn tg = tempos1 tb tOn tg := by
      unfold tempos2
      rw [if_neg h]
    have hbpm : detectBpm tb tOn tg = roundTo 2 (npMedian (tempos1 tb tOn tg)) := by
      unfold detectBpm
      rw [h2, if_neg h]
    have hbound : ∀ x ∈ tempos1 tb tOn tg, 60 ≤ x ∧ x ≤ 200 := by
      intro x hx
      have hm := (List.mem_filter.mp hx).2
      simp only [inRange, Bool.and_eq_true, decide_eq_true_eq] at hm
      exact hm
    have hmed := npMedian_bounds h hbound
    have hlo : ((60:ℤ):ℚ) ≤ npMedian (tempos1 tb tOn tg) := by exact_mod_cast hmed.1
    have hhi : npMedian (tempos1 tb tOn tg) ≤ ((200:ℤ):ℚ) := by exact_mod_cast hmed.2
    have hr := roundTo_two_bounds hlo hhi
    refine ⟨hbpm, ?_, ?_⟩
    · rw [hbpm]
      exact_mod_cast hr.1
    · rw [hbpm]
      exact_mod_cast hr.2
  · intro h1 h2
    have he : tempos2 tb tOn tg = octaveCorrected tb tOn := by
      unfold tempos2
      rw [if_pos h1]
    rw [he] at h2
    unfold detectBpm
    rw [he, if_neg h2]
  · intro h
    unfold detect detectBpm detectConf
    rw [if_pos h, if_pos h]

unseal Rat.mul Rat.inv Rat.add Rat.sub in
/-- Witness for C4 with two direct 120-BPM estimates: the initial filter
keeps them and the detector returns 120. -/
theorem claim_C4_bpm_combine_witness :
    BPMDetector.tempos1 120 120 none ≠ []
    ∧ BPMDetector.detectBpm 120 120 none
        = roundTo 2 (BPMDetector.npMedian (BPMDetector.tempos1 120 120 none))
    ∧ BPMDetector.detectBpm 120 120 none = 120 :=
  ⟨by decide, ((claim_C4_bpm_combine 120 120 none).1 (by decide)).1, by decide⟩

unseal Rat.mul Rat.inv Rat.add Rat.sub in
/-- C4 counterexample: with beat and onset estimates of 500 BPM nothing
survives the initial filter, octave correction halves them to 250 and no
second filter runs, so the detector returns 250 — estimates survived yet
the returned BPM is outside [60,200], refuting the claim's re-filter and
its range guarantee. -/
theorem claim_C4_counterexample :
    BPMDetector.tempos1 500 500 none = []
    ∧ BPMDetector.tempos2 500 500 none = [250, 250]
    ∧ BPMDetector.detectBpm 500 500 none = 250
    ∧ ¬(BPMDetector.detectBpm 500 500 none ≤ 200) := by
  refine ⟨by decide, by decide, by decide, by decide⟩

open BPMDetector in
/-- C7 (amended): when all three estimates equal X ∈ [60,200], the detector
returns BPM `round(X, 2)` — which equals X exactly when X has at most two
decimal places — and confidence exactly 1.0. -/
theorem claim_C7_identical_estimates (X : ℚ) (h1 : 60 ≤ X) (h2 : X ≤ 200) :
    detect X X (some X) = (roundTo 2 X, 1)
    ∧ ((X * 100).den = 1 → roundTo 2 X = X) := by
  have hX0 : X ≠ 0 := by
    intro hh
    rw [hh] at h1
    norm_num at h1
  have ht0 : tempos0 X X (some X) = [X, X, X] := by
    simp [tempos0, hX0]
  have hin : inRange X = true := by
    simp [inRange, h1, h2]
  have ht1 : tempos1 X X (some X) = [X, X, X] := by
    unfold tempos1
    rw [ht0]
    simp [List.filter, hin]
  have hne : tempos1 X X (some X) ≠ [] := by
    rw [ht1]
    simp
  have ht2 : tempos2 X X (some X) = [X, X, X] := by
    unfold tempos2
    rw [if_neg hne, ht1]
  have hsort : sortQ [X, X, X] = [X, X, X] := by
    simp [sortQ, insertS]
  have hmed : npMedian [X, X, X] = X := by
    unfold npMedian
    rw [hsort]
    norm_num [List.getD]
  have hmean : npMean [X, X, X] = X := by
    simp [npMean]
    ring
  have hvar : npVar [X, X, X] = 0 := by
    simp [npVar, hmean]
  have hbpm : detectBpm X X (some X) = roundTo 2 X := by
    unfold detectBpm
    rw [ht2]
    simp [hmed]
  have hconf : detectConf X X (some X) = 1 := by
    unfold detectConf
    rw [ht2, hvar, hmed]
    rw [if_neg (by simp), if_pos (by simp)]
    rw [Rat.cast_zero, Real.sqrt_zero, zero_div, sub_zero,
      max_eq_right zero_le_one, roundTo_three_one]
  constructor
  · unfold detect
    rw [hbpm, hconf]
  · exact roundTo_den_one

unseal Rat.mul Rat.inv Rat.add Rat.sub in
/-- Witness for C7 at X = 120: three identical in-range estimates give BPM
exactly 120 and confidence 1. -/
theorem claim_C7_identical_estimates_witness :
    ((60:ℚ) ≤ 120 ∧ (120:ℚ) ≤ 200 ∧ ((120:ℚ) * 100).den = 1)
    ∧ BPMDetector.detect 120 120 (some 120) = (roundTo 2 (120:ℚ), 1)
    ∧ roundTo 2 (120:ℚ) = 120 :=
  ⟨⟨by norm_num, by norm_num, by decide⟩,
   (claim_C7_identical_estimates 120 (by norm_num) (by norm_num)).1,
   (claim_C7_identical_estimates 120 (by norm_num) (by norm_num)).2 (by decide)⟩

unseal Rat.mul Rat.inv Rat.add Rat.sub in
/-- C7 counterexample: X = 60.501 lies in [60,200] and all three estimates
equal X, but the returned BPM is `round(60.501, 2) = 60.5 ≠ X`, because the
source rounds the median to two decimals. -/
theorem claim_C7_counterexample :
    ((60:ℚ) ≤ 60501/1000 ∧ (60501:ℚ)/1000 ≤ 200)
    ∧ BPMDetector.detectBpm (60501/1000) (60501/1000) (some (60501/1000)) = 121/2
    ∧ (121:ℚ)/2 ≠ 60501/1000 := by
  refine ⟨⟨by norm_num, by norm_num⟩, by decide, by norm_num⟩

namespace KeyDetector

theorem meanR_zero : meanR (List.replicate 12 (0:ℝ)) = 0 := by
  simp [meanR]

theorem corrcoef_zero_left (y : List ℝ) :
    corrcoef (List.replicate 12 (0:ℝ)) y = none := by
  unfold corrcoef
  simp [meanR]

theorem detectStep_zero (st : Option ℕ × Option String × ℝ) (p : ℕ) :
    detectStep (List.replicate 12 (0:ℝ)) st p = st := by
  unfold detectStep
  rw [corrcoef_zero_left, corrcoef_zero_left]
  simp [nanGt]

theorem foldl_detectStep_zero (l : List ℕ) (st : Option ℕ × Option String × ℝ) :
    l.foldl (detectStep (List.replicate 12 (0:ℝ))) st = st := by
  induction l generalizing st with
  | nil => rfl
  | cons a as ih =>
    rw [List.foldl_cons, detectStep_zero]
    exact ih st

theorem normalizeChroma_zero :
    normalizeChroma (List.replicate 12 (0:ℝ)) = List.replicate 12 0 := by
  simp [normalizeChroma]

end KeyDetector

/-- C3: the spec requires `detect` to fail closed on all-zero chroma
(silence) and return root "C" with confidence 0.0 — but in the source every
one of the 24 correlations is NaN (`np.corrcoef` against a zero-variance
vector), every `NaN > best_correlation` comparison is False, `best_key`
stays `None`, and `PITCH_CLASSES[best_key]` raises `TypeError`.  The model
returns `none` (the raised exception) instead of the required default. -/
theorem claim_C3_silence_crash :
    KeyDetector.detect (List.replicate 12 0) = none := by
  simp only [KeyDetector.detect, KeyDetector.normalizeChroma_zero,
    KeyDetector.foldl_detectStep_zero]

/-- C6: the claim says `_compute_energy` returns exactly 0.0 on the empty
waveform.  In the source `np.mean` of the empty squared array is NaN, the
NaN propagates to `combined`, and Python's `min(1.0, NaN*5)` evaluates to
1.0, so the function returns 1.0 — regardless of the (external) mean STFT
magnitude. -/
theorem claim_C6_energy_empty (spectral_energy : ℝ) :
    AudioAnalyzer.compute_energy [] spectral_energy = 1 := by
  simp [AudioAnalyzer.compute_energy, npMeanOpt, roundTo_three_one]

theorem sumSq_nonneg (l : List ℝ) : 0 ≤ sumSq l := by
  apply List.sum_nonneg
  intro x hx
  rcases List.mem_map.mp hx with ⟨a, _, rfl⟩
  positivity

theorem sumSq_append (a b : List ℝ) : sumSq (a ++ b) = sumSq a + sumSq b := by
  simp [sumSq]

theorem sumSq_replicate_zero (n : ℕ) : sumSq (List.replicate n (0:ℝ)) = 0 := by
  simp [sumSq]

theorem sumSq_map_div (v : List ℝ) (c : ℝ) :
    sumSq (v.map (· / c)) = sumSq v / c ^ 2 := by
  induction v with
  | nil => simp [sumSq]
  | cons x xs ih =>
    simp only [List.map_cons, sumSq, List.sum_cons, List.map_map] at ih ⊢
    rw [div_pow, ih]
    ring

theorem sumSq_eq_zero {v : List ℝ} (h : sumSq v = 0) : ∀ x ∈ v, x = 0 := by
  induction v with
  | nil => simp
  | cons x xs ih =>
    have hx2 : (0:ℝ) ≤ x ^ 2 := by positivity
    have hxs : 0 ≤ sumSq xs := sumSq_nonneg xs
    have hsum : sumSq (x :: xs) = x ^ 2 + sumSq xs := by simp [sumSq]
    rw [hsum] at h
    have h1 : x ^ 2 = 0 := by linarith
    have h2 : sumSq xs = 0 := by linarith
    intro z hz
    rcases List.mem_cons.mp hz with hz | hz
    · rw [hz]
      exact pow_eq_zero_iff (by norm_num) |>.mp h1
    · exact ih h2 z hz

/-- C5: `generate` always returns exactly 256 values; whenever the
( at most 256-long) pre-padding feature vector has non-zero norm the result
has unit L2 norm (zero-padding preserves it); and a zero feature vector —
in particular the spec's all-zero-waveform case — skips normalisation and
yields the all-zero embedding, never NaN. -/
theorem claim_C5_generate (v : List ℝ) :
    (EmbeddingGenerator.generate v).length = 256
    ∧ (v.length ≤ 256 → sumSq v ≠ 0 → sumSq (EmbeddingGenerator.generate v) = 1)
    ∧ (sumSq v = 0 → EmbeddingGenerator.generate v = List.replicate 256 0) := by
  refine ⟨?_, ?_, ?_⟩
  · unfold EmbeddingGenerator.generate
    by_cases hn : Real.sqrt (sumSq v) > 0 <;>
      simp only [hn, if_true, if_false, reduceIte] <;>
      split <;>
      simp_all [List.length_take] <;>
      omega
  · intro hlen hne
    have hpos : 0 < sumSq v := lt_of_le_of_ne (sumSq_nonneg v) (Ne.symm hne)
    have hnorm : Real.sqrt (sumSq v) > 0 := Real.sqrt_pos.mpr hpos
    have hnz : Real.sqrt (sumSq v) ≠ 0 := ne_of_gt hnorm
    have hmap : sumSq (v.map (· / Real.sqrt (sumSq v))) = 1 := by
      rw [sumSq_map_div, Real.sq_sqrt (sumSq_nonneg v)]
      exact div_self hne
    simp only [EmbeddingGenerator.generate]
    rw [if_pos hnorm]
    have hlen2 : (v.map (· / Real.sqrt (sumSq v))).length = v.length := by simp
    by_cases hl : (v.map (· / Real.sqrt (sumSq v))).length < 256
    · rw [if_pos hl, sumSq_append, hmap, sumSq_replicate_zero, add_zero]
    · rw [if_neg hl]
      have : (v.map (· / Real.sqrt (sumSq v))).length = 256 := by omega
      rw [List.take_of_length_le (by omega), hmap]
  · intro h0
    have hall : ∀ x ∈ v, x = 0 := sumSq_eq_zero h0
    have hv : v = List.replicate v.length 0 := List.eq_replicate_of_mem hall
    have hnorm : ¬ Real.sqrt (sumSq v) > 0 := by
      rw [h0, Real.sqrt_zero]
      norm_num
    simp only [EmbeddingGenerator.generate]
    rw [if_neg hnorm]
    by_cases hl : v.length < 256
    · rw [if_pos hl]
      calc v ++ List.replicate (256 - v.length) 0
          = List.replicate v.length 0 ++ List.replicate (256 - v.length) 0 := by
            rw [← hv]
        _ = List.replicate (v.length + (256 - v.length)) (0:ℝ) := by
            rw [List.replicate_add]
        _ = List.replicate 256 0 := by
            congr 1
            omega
    · rw [if_neg hl]
      rw [hv, List.take_replicate]
      congr 1
      omega

theorem le_foldl_max (a : ℝ) (l : List ℝ) : a ≤ l.foldl max a := by
  induction l generalizing a with
  | nil => exact le_refl a
  | cons x xs ih =>
    rw [List.foldl_cons]
    exact le_trans (le_max_left a x) (ih (max a x))

theorem mem_le_foldl_max {x : ℝ} {l : List ℝ} (h : x ∈ l) (a : ℝ) :
    x ≤ l.foldl max a := by
  induction l generalizing a with
  | nil => simp at h
  | cons y ys ih =>
    rw [List.foldl_cons]
    rcases List.mem_cons.mp h with rfl | h
    · exact le_trans (le_max_right a x) (le_foldl_max (max a x) ys)
    · exact ih h (max a y)

namespace EmbeddingGenerator

theorem pymax_ge {l : List ℝ} {x : ℝ} (h : x ∈ l) : x ≤ pymaxList l := by
  cases l with
  | nil => simp at h
  | cons y ys =>
    rcases List.mem_cons.mp h with rfl | h
    · exact le_foldl_max x ys
    · exact mem_le_foldl_max h y

theorem binValue_nonneg (y : List ℝ) (spb i : ℕ) : 0 ≤ binValue y spb i := by
  simp only [binValue]
  split
  · exact Real.sqrt_nonneg _
  · exact le_refl 0

theorem binValue_zero {y : List ℝ} {spb i : ℕ} (h : y.length ≤ i * spb) :
    binValue y spb i = 0 := by
  simp [binValue, List.drop_eq_nil_of_le h]

theorem mem_rawWaveform_nonneg {v : ℝ} {y : List ℝ} {ns : ℕ}
    (h : v ∈ rawWaveform y ns) : 0 ≤ v := by
  rcases List.mem_map.mp h with ⟨i, _, rfl⟩
  exact binValue_nonneg y _ i

theorem rawWaveform_getElem {y : List ℝ} {ns i : ℕ} (hi : i < ns) :
    (rawWaveform y ns)[i]? = some (binValue y (samplesPerBin y.length ns) i) := by
  simp [rawWaveform, List.getElem?_map, List.getElem?_range hi]

end EmbeddingGenerator

open EmbeddingGenerator in
/-- C9: for every waveform (including ones shorter than `num_samples`) and
every `num_samples ≥ 1`, `generate_waveform_data` returns exactly
`num_samples` values, each in [0,1], and every bin whose start index lies
past the end of the waveform contributes 0.0. -/
theorem claim_C9_waveform_data (y : List ℝ) (ns : ℕ) (_h1 : 1 ≤ ns) :
    (generate_waveform_data y ns).length = ns
    ∧ (∀ v ∈ generate_waveform_data y ns, 0 ≤ v ∧ v ≤ 1)
    ∧ (∀ i, i < ns → y.length ≤ i * samplesPerBin y.length ns →
        (generate_waveform_data y ns).getD i 1 = 0) := by
  refine ⟨?_, ?_, ?_⟩
  · simp only [generate_waveform_data]
    split <;> simp [rawWaveform]
  · intro v hv
    simp only [generate_waveform_data] at hv
    split at hv
    · rename_i hm
      rcases List.mem_map.mp hv with ⟨u, hu, rfl⟩
      have hnn := mem_rawWaveform_nonneg hu
      refine ⟨div_nonneg hnn (le_of_lt hm), ?_⟩
      rw [div_le_one hm]
      exact pymax_ge hu
    · rename_i hm
      have hnn := mem_rawWaveform_nonneg hv
      have hle := pymax_ge hv
      have hm0 : pymaxList (rawWaveform y ns) ≤ 0 := le_of_not_lt hm
      exact ⟨hnn, by linarith⟩
  · intro i hi hpast
    have hidx : (rawWaveform y ns)[i]? = some 0 := by
      rw [rawWaveform_getElem hi, binValue_zero hpast]
    simp only [generate_waveform_data]
    split
    · rw [List.getD_eq_getElem?_getD, List.getElem?_map, hidx]
      simp
    · rw [List.getD_eq_getElem?_getD, hidx]
      simp

/-- Witness for C9 at the empty waveform with one bin: the hypothesis holds
and the preview has exactly one (zero) sample. -/
theorem claim_C9_waveform_data_witness :
    1 ≤ 1 ∧ (EmbeddingGenerator.generate_waveform_data [] 1).length = 1 :=
  ⟨le_refl 1, (claim_C9_waveform_data [] 1 (le_refl 1)).1⟩

/-- Witness for C5 at the feature vector `1 :: 0^144` (length 145, norm 1):
the hypotheses hold and the padded embedding has unit squared norm. -/
theorem claim_C5_generate_witness :
    ((1 :: List.replicate 144 (0:ℝ)).length ≤ 256
      ∧ sumSq (1 :: List.replicate 144 (0:ℝ)) ≠ 0)
    ∧ sumSq (EmbeddingGenerator.generate (1 :: List.replicate 144 0)) = 1 :=
  ⟨⟨by simp, by norm_num [sumSq]⟩,
   (claim_C5_generate (1 :: List.replicate 144 0)).2.1 (by simp)
     (by norm_num [sumSq])⟩

end CatchMyVibe
